import Mathlib

/-!
# Verification of `midi_image_trigger`

A shallow embedding, in Lean 4, of the core algorithms of the
`midi_image_trigger` repository:

* `compute_grid_dimensions` from `src/midi2img.py` (the grid layout engine);
* the MIDI note-event handling of `main` in `src/midi2img.py`
  (the active-note dict and its deterministic render order);
* `process_image_array` from `src/corruptize.py` (flatten, normalize,
  effect, denormalize, reshape).

Python machine arithmetic is embedded exactly: `int(x)` truncation toward
zero is `pyInt`, float division is exact division on `ℚ`, `math.ceil` of a
quotient is `Int.ceil` on `ℚ`, `math.ceil(math.sqrt n)` on a natural is
`ceilSqrt`, and numpy's `.astype(np.uint8)` after a clip to `[0, 255]` is
again truncation toward zero.  Fallible numpy operations (`min`/`max` of an
empty array raise `ValueError`) are embedded with `Option`.
-/

section GridLayoutEngine

/-- Python `int(x)` applied to a real (float) value: truncation toward zero. -/
def pyInt (q : ℚ) : ℤ := if 0 ≤ q then ⌊q⌋ else ⌈q⌉

/-- `math.ceil(math.sqrt n)` for a natural `n`: the least `k` with `n ≤ k²`,
computed from `Nat.sqrt`. -/
def ceilSqrt (n : ℕ) : ℕ :=
  if Nat.sqrt n * Nat.sqrt n = n then Nat.sqrt n else Nat.sqrt n + 1

/-- `rows = math.ceil(n_items / cols)` (Python true division then ceiling). -/
def rowsFor (n cols : ℕ) : ℕ := (⌈(n : ℚ) / (cols : ℚ)⌉).toNat

/-- A candidate cell size `(window − (k + 1) * padding) / k` as an exact
rational, for `k` columns (resp. rows) — midi2img.py lines 96–97 and
104–105. -/
def cellCand (window : ℤ) (k : ℕ) (padding : ℤ) : ℚ :=
  ((window : ℚ) - ((k : ℚ) + 1) * (padding : ℚ)) / (k : ℚ)

/-- The break test of the `while cols > 1` loop in `compute_grid_dimensions`
(line 98): both candidate cell sizes at `cols` columns (and
`rowsFor n cols` rows) reach `min_cell_size`. -/
def candGood (n : ℕ) (window_w window_h padding min_cell_size : ℤ)
    (cols : ℕ) : Prop :=
  (min_cell_size : ℚ) ≤ cellCand window_w cols padding ∧
  (min_cell_size : ℚ) ≤ cellCand window_h (rowsFor n cols) padding

instance (n window_w window_h padding min_cell_size cols) :
    Decidable (candGood n window_w window_h padding min_cell_size cols) :=
  inferInstanceAs (Decidable (_ ∧ _))

/-- The `while cols > 1` loop of `compute_grid_dimensions` (lines 95–102):
starting from the given `cols`, decrement `cols` (recomputing
`rows = math.ceil(n_items / cols)` each time) until the candidate cell
sizes reach `min_cell_size`, or until `cols = 1`.  Returns the final
`cols`. -/
def searchCols (n : ℕ) (window_w window_h padding min_cell_size : ℤ) :
    ℕ → ℕ
  | 0 => 0
  | 1 => 1
  | cols + 2 =>
    if candGood n window_w window_h padding min_cell_size (cols + 2) then
      cols + 2
    else
      searchCols n window_w window_h padding min_cell_size (cols + 1)

/-- The tuple `(cols, rows, cell_w, cell_h, left, top)` returned by
`compute_grid_dimensions`. -/
structure GridLayout where
  cols : ℤ
  rows : ℤ
  cell_w : ℤ
  cell_h : ℤ
  left : ℤ
  top : ℤ
  deriving Repr, DecidableEq

/-- The final `cols`: the loop run from the initial
`cols = math.ceil(math.sqrt n)` (line 91). -/
def gridCols (n : ℕ) (window_w window_h padding min_cell_size : ℤ) : ℕ :=
  searchCols n window_w window_h padding min_cell_size (ceilSqrt n)

/-- The final `rows = math.ceil(n_items / cols)` (lines 92 and 102). -/
def gridRows (n : ℕ) (window_w window_h padding min_cell_size : ℤ) : ℕ :=
  rowsFor n (gridCols n window_w window_h padding min_cell_size)

/-- `cell_w = max(1, int((window_w - (cols + 1) * padding) / cols))`
(line 104). -/
def gridCellW (n : ℕ) (window_w window_h padding min_cell_size : ℤ) : ℤ :=
  max 1 (pyInt (cellCand window_w
    (gridCols n window_w window_h padding min_cell_size) padding))

/-- `cell_h = max(1, int((window_h - (rows + 1) * padding) / rows))`
(line 105). -/
def gridCellH (n : ℕ) (window_w window_h padding min_cell_size : ℤ) : ℤ :=
  max 1 (pyInt (cellCand window_h
    (gridRows n window_w window_h padding min_cell_size) padding))

/-- `grid_w = cols * cell_w + (cols + 1) * padding` (line 108). -/
def gridW (n : ℕ) (window_w window_h padding min_cell_size : ℤ) : ℤ :=
  (gridCols n window_w window_h padding min_cell_size : ℤ) *
      gridCellW n window_w window_h padding min_cell_size +
    ((gridCols n window_w window_h padding min_cell_size : ℤ) + 1) * padding

/-- `grid_h = rows * cell_h + (rows + 1) * padding` (line 109). -/
def gridH (n : ℕ) (window_w window_h padding min_cell_size : ℤ) : ℤ :=
  (gridRows n window_w window_h padding min_cell_size : ℤ) *
      gridCellH n window_w window_h padding min_cell_size +
    ((gridRows n window_w window_h padding min_cell_size : ℤ) + 1) * padding

/-- `left = max(0, int((window_w - grid_w) / 2))` (line 110). -/
def gridLeft (n : ℕ) (window_w window_h padding min_cell_size : ℤ) : ℤ :=
  max 0 (pyInt (((window_w : ℚ) -
    (gridW n window_w window_h padding min_cell_size : ℚ)) / 2))

/-- `top = max(0, int((window_h - grid_h) / 2))` (line 111). -/
def gridTop (n : ℕ) (window_w window_h padding min_cell_size : ℤ) : ℤ :=
  max 0 (pyInt (((window_h : ℚ) -
    (gridH n window_w window_h padding min_cell_size : ℚ)) / 2))

/-- `compute_grid_dimensions` from `src/midi2img.py` (lines 82–113):
the guard `n_items <= 0` returns the degenerate zero tuple (lines 88–89);
otherwise the column search, cell sizes and centered origin are assembled
from the pieces above. -/
def compute_grid_dimensions (n_items window_w window_h padding
    min_cell_size : ℤ) : GridLayout :=
  if n_items ≤ 0 then ⟨0, 0, 0, 0, 0, 0⟩
  else
    ⟨gridCols n_items.toNat window_w window_h padding min_cell_size,
     gridRows n_items.toNat window_w window_h padding min_cell_size,
     gridCellW n_items.toNat window_w window_h padding min_cell_size,
     gridCellH n_items.toNat window_w window_h padding min_cell_size,
     gridLeft n_items.toNat window_w window_h padding min_cell_size,
     gridTop n_items.toNat window_w window_h padding min_cell_size⟩

end GridLayoutEngine

section ActiveNoteSet

/-- A pending MIDI message as inspected by the event loop of `main`
(midi2img.py lines 165–173): only the type, note and velocity fields are
read. -/
inductive MidiMsg where
  | note_on (note velocity : ℕ)
  | note_off (note : ℕ)
  deriving Repr, DecidableEq

/-- The `active` dict of `main`: an association list `note ↦ (surf, on_time)`
in insertion order with unique keys, modelling a Python dict whose values
are the records `{"surf": ..., "on_time": ...}` (image handles and times
are opaque naturals here). -/
abbrev ActiveMap := List (ℕ × ℕ × ℕ)

/-- `d[k] = v` on a Python dict: overwrite in place if the key is present
(dicts keep insertion order); append otherwise. -/
def dictSet (k : ℕ) (v : ℕ × ℕ) : ActiveMap → ActiveMap
  | [] => [(k, v)]
  | (k', v') :: rest =>
    if k' = k then (k, v) :: rest else (k', v') :: dictSet k v rest

/-- `if k in d: del d[k]` on a Python dict: remove the entry if present,
leave the dict unchanged otherwise. -/
def dictDel (k : ℕ) (d : ActiveMap) : ActiveMap :=
  d.filter (fun e => e.1 != k)

/-- One iteration of the `for msg in inport.iter_pending()` body
(midi2img.py lines 165–173): a `note_on` with positive velocity inserts
the note when the loaded-image map has it (`if note in images`), and is
ignored otherwise; a `note_off`, or a `note_on` with velocity 0, deletes
the note if active.  `images` is the loaded image map `note ↦ surf`;
`now` is `time.time()` for this message. -/
def handleMsg (images : List (ℕ × ℕ)) (now : ℕ) (active : ActiveMap) :
    MidiMsg → ActiveMap
  | .note_on note velocity =>
    if 0 < velocity then
      match images.lookup note with
      | some surf => dictSet note (surf, now) active
      | none => active
    else
      dictDel note active
  | .note_off note => dictDel note active

/-- Draining a sequence of pending messages, each carrying the time at
which it is handled. -/
def handleMsgs (images : List (ℕ × ℕ)) (active : ActiveMap)
    (msgs : List (MidiMsg × ℕ)) : ActiveMap :=
  msgs.foldl (fun a p => handleMsg images p.2 a p.1) active

/-- `sorted_notes = sorted(active.keys())` (midi2img.py line 187): the
deterministic ascending-note render order. -/
def sorted_notes (active : ActiveMap) : List ℕ :=
  List.insertionSort (· ≤ ·) (active.map Prod.fst)

end ActiveNoteSet

section SignalEffectChain

/-- An `H × W × 3` frame buffer as nested lists: rows, then pixels, then
channel samples. -/
abbrev Frame (α : Type) := List (List (List α))

/-- `image_array.flatten()`: row-major (C-order) traversal — height, then
width, then channel. -/
def flatten3 {α : Type} (image_array : Frame α) : List α :=
  (image_array.map List.flatten).flatten

/-- Well-formedness of an `H × W × 3` frame: `H` rows, each of `W` pixels,
each of 3 channel samples. -/
def wfFrame {α : Type} (H W : ℕ) (f : Frame α) : Prop :=
  f.length = H ∧ ∀ row ∈ f, row.length = W ∧ ∀ px ∈ row, px.length = 3

/-- `numpy.min` of a flat sequence: raises (`none`) on an empty array,
otherwise folds `min`. -/
def listMin : List ℚ → Option ℚ
  | [] => none
  | x :: xs => some (xs.foldl min x)

/-- `numpy.max` of a flat sequence: raises (`none`) on an empty array,
otherwise folds `max`. -/
def listMax : List ℚ → Option ℚ
  | [] => none
  | x :: xs => some (xs.foldl max x)

/-- The normalization step of `process_image_array` (corruptize.py lines
50–57): compute `minv` and `maxv` (an error on an empty signal); if
`maxv == minv` fill with `0.0`, otherwise apply
`2 * ((x - minv) / (maxv - minv)) - 1`. -/
def normalizeSignal (audio_data : List ℚ) : Option (List ℚ) :=
  match listMin audio_data, listMax audio_data with
  | some minv, some maxv =>
    if maxv = minv then some (audio_data.map fun _ => 0)
    else some (audio_data.map fun x => 2 * ((x - minv) / (maxv - minv)) - 1)
  | _, _ => none

/-- `numpy.clip(x, lo, hi)`. -/
def clipQ (x lo hi : ℚ) : ℚ := min (max x lo) hi

/-- One output byte of the denormalization step (corruptize.py line 62):
`((s + 1.0) * 0.5 * 255.0).clip(0, 255).astype(np.uint8)` — the scaled
value is clipped to `[0, 255]` and then cast to `uint8`, which truncates
toward zero (`0.5 = 1/2` exactly). -/
def denormByte (s : ℚ) : ℤ := pyInt (clipQ ((s + 1) * (1 / 2) * 255) 0 255)

/-- Modelled from the spec's words for comparison with `denormByte`:
`byte = clip(round((sample + 1) * 0.5 * 255), 0, 255)` — round to nearest
first, then clamp to `0..255`. -/
def specDenormByte (s : ℚ) : ℤ :=
  min 255 (max 0 (round ((s + 1) * (1 / 2) * 255)))

/-- One row of `reshape`: split a flat slice into `W` pixels of `C`
channel samples each. -/
def chunkRow {α : Type} : (W C : ℕ) → List α → List (List α)
  | 0, _, _ => []
  | W + 1, C, l => l.take C :: chunkRow W C (l.drop C)

/-- `flat.reshape(H, W, C)` (corruptize.py line 63): rebuild the nested
`H × W × C` geometry from the flat sequence, in the same row-major
traversal order as `flatten3`. -/
def reshape3 {α : Type} : (H W C : ℕ) → List α → Frame α
  | 0, _, _, _ => []
  | H + 1, W, C, l =>
    chunkRow W C (l.take (W * C)) :: reshape3 H W C (l.drop (W * C))

/-- `process_image_array` from `src/corruptize.py` (lines 44–64): flatten
the `H × W × 3` byte frame, convert to float, normalize to `[-1, 1]`
(an error — `none` — on an empty signal, since `numpy.min` of an empty
array raises), run the effect chain, denormalize each sample with
`denormByte`, and reshape to the original geometry.  The effect chain
(`effect`, corruptize.py lines 36–42, a stateful Pedalboard) is abstracted
as a function argument. -/
def process_image_array (effect : List ℚ → List ℚ) (H W : ℕ)
    (image_array : Frame ℕ) : Option (Frame ℤ) :=
  match normalizeSignal ((flatten3 image_array).map (fun b : ℕ => (b : ℚ))) with
  | none => none
  | some audio_data =>
    some (reshape3 H W 3 ((effect audio_data).map denormByte))

end SignalEffectChain

/-! ### Properties of the column search -/

theorem searchCols_le (n : ℕ) (W H p m : ℤ) (c : ℕ) :
    searchCols n W H p m c ≤ c := by
  induction c with
  | zero => simp [searchCols]
  | succ c ih =>
    match c, ih with
    | 0, _ => simp [searchCols]
    | c' + 1, ih =>
      rw [searchCols]
      split
      · exact le_refl _
      · exact le_trans ih (by omega)

theorem searchCols_pos (n : ℕ) (W H p m : ℤ) (c : ℕ) (hc : 1 ≤ c) :
    1 ≤ searchCols n W H p m c := by
  induction c with
  | zero => omega
  | succ c ih =>
    match c, ih with
    | 0, _ => simp [searchCols]
    | c' + 1, ih =>
      rw [searchCols]
      split
      · omega
      · exact ih (by omega)

theorem searchCols_good_or_one (n : ℕ) (W H p m : ℤ) (c : ℕ) (hc : 1 ≤ c) :
    candGood n W H p m (searchCols n W H p m c) ∨
      searchCols n W H p m c = 1 := by
  induction c with
  | zero => omega
  | succ c ih =>
    match c, ih with
    | 0, _ => right; simp [searchCols]
    | c' + 1, ih =>
      rw [searchCols]
      split
      · left; assumption
      · exact ih (by omega)

theorem searchCols_first (n : ℕ) (W H p m : ℤ) (c : ℕ) :
    ∀ d, searchCols n W H p m c < d → d ≤ c → ¬ candGood n W H p m d := by
  induction c with
  | zero => omega
  | succ c ih =>
    match c, ih with
    | 0, _ =>
      intro d hd1 hd2
      simp [searchCols] at hd1
      omega
    | c' + 1, ih =>
      intro d hd1 hd2
      rw [searchCols] at hd1
      split at hd1
      · omega
      · rcases Nat.lt_or_ge d (c' + 2) with hlt | hge
        · exact ih d hd1 (by omega)
        · have : d = c' + 2 := by omega
          subst this
          assumption

theorem ceilSqrt_pos (n : ℕ) (hn : 1 ≤ n) : 1 ≤ ceilSqrt n := by
  rw [ceilSqrt]
  split
  · rename_i h
    by_contra hc
    have : Nat.sqrt n = 0 := by omega
    rw [this] at h
    omega
  · omega

theorem rowsFor_pos (n cols : ℕ) (hn : 1 ≤ n) (hc : 1 ≤ cols) :
    1 ≤ rowsFor n cols := by
  rw [rowsFor]
  have h1 : (0 : ℚ) < (n : ℚ) / (cols : ℚ) := by
    apply div_pos
    · exact_mod_cast hn
    · exact_mod_cast hc
  have h2 : 0 < ⌈(n : ℚ) / (cols : ℚ)⌉ := Int.ceil_pos.mpr h1
  omega

/-- `cols * ceil(n / cols) ≥ n`: the grid always has enough cells. -/
theorem le_mul_rowsFor (n cols : ℕ) (hc : 1 ≤ cols) :
    n ≤ cols * rowsFor n cols := by
  rw [rowsFor]
  have hcq : (0 : ℚ) < (cols : ℚ) := by exact_mod_cast hc
  have h1 : (n : ℚ) / (cols : ℚ) ≤ (⌈(n : ℚ) / (cols : ℚ)⌉ : ℚ) :=
    Int.le_ceil _
  have h2 : (n : ℚ) ≤ (⌈(n : ℚ) / (cols : ℚ)⌉ : ℚ) * (cols : ℚ) :=
    (div_le_iff₀ hcq).mp h1
  have h3 : 0 ≤ ⌈(n : ℚ) / (cols : ℚ)⌉ := by
    apply Int.ceil_nonneg
    positivity
  have h4 : (n : ℤ) ≤ ⌈(n : ℚ) / (cols : ℚ)⌉ * (cols : ℤ) := by
    exact_mod_cast h2
  have h5 : (⌈(n : ℚ) / (cols : ℚ)⌉.toNat : ℤ) = ⌈(n : ℚ) / (cols : ℚ)⌉ :=
    Int.toNat_of_nonneg h3
  zify
  calc (n : ℤ) ≤ ⌈(n : ℚ) / (cols : ℚ)⌉ * (cols : ℤ) := h4
    _ = (cols : ℤ) * ⌈(n : ℚ) / (cols : ℚ)⌉ := mul_comm _ _
    _ = (cols : ℤ) * (⌈(n : ℚ) / (cols : ℚ)⌉.toNat : ℤ) := by rw [h5]

/-! ## Claims about the grid layout engine -/

/-- C9: for every `item_count ≤ 0` (in particular `item_count = 0`),
`compute_grid_dimensions` returns the degenerate all-zero layout
`(0, 0, 0, 0, 0, 0)`, regardless of the canvas, padding and min-cell-size
arguments. -/
theorem degenerate_zero_layout (n_items window_w window_h padding
    min_cell_size : ℤ) (h : n_items ≤ 0) :
    compute_grid_dimensions n_items window_w window_h padding min_cell_size
      = ⟨0, 0, 0, 0, 0, 0⟩ := by
  rw [compute_grid_dimensions, if_pos h]

/-- Witness for C9 at `item_count = 0`, canvas `800 × 600`, padding 8,
min cell size 24. -/
theorem degenerate_zero_layout_witness :
    (0 : ℤ) ≤ 0 ∧
    compute_grid_dimensions 0 800 600 8 24 = ⟨0, 0, 0, 0, 0, 0⟩ :=
  ⟨le_refl 0, degenerate_zero_layout 0 800 600 8 24 (le_refl 0)⟩

/-- C1: for every `item_count ≥ 1` and every choice of canvas width, canvas
height, padding and min cell size, `compute_grid_dimensions` returns
`columns ≥ 1`, `rows ≥ 1`, `columns * rows ≥ item_count`, and
`cell_width ≥ 1` and `cell_height ≥ 1`. -/
theorem grid_layout_invariants (n_items window_w window_h padding
    min_cell_size : ℤ) (h : 1 ≤ n_items) :
    1 ≤ (compute_grid_dimensions n_items window_w window_h padding
          min_cell_size).cols ∧
    1 ≤ (compute_grid_dimensions n_items window_w window_h padding
          min_cell_size).rows ∧
    n_items ≤ (compute_grid_dimensions n_items window_w window_h padding
          min_cell_size).cols *
        (compute_grid_dimensions n_items window_w window_h padding
          min_cell_size).rows ∧
    1 ≤ (compute_grid_dimensions n_items window_w window_h padding
          min_cell_size).cell_w ∧
    1 ≤ (compute_grid_dimensions n_items window_w window_h padding
          min_cell_size).cell_h := by
  have h0 : ¬ n_items ≤ 0 := by omega
  rw [compute_grid_dimensions, if_neg h0]
  dsimp only
  have hn1 : 1 ≤ n_items.toNat := by omega
  have hcols : 1 ≤ gridCols n_items.toNat window_w window_h padding
      min_cell_size :=
    searchCols_pos _ _ _ _ _ _ (ceilSqrt_pos _ hn1)
  have hrows : 1 ≤ gridRows n_items.toNat window_w window_h padding
      min_cell_size :=
    rowsFor_pos _ _ hn1 hcols
  have hcount : n_items.toNat ≤
      gridCols n_items.toNat window_w window_h padding min_cell_size *
        gridRows n_items.toNat window_w window_h padding min_cell_size :=
    le_mul_rowsFor _ _ hcols
  refine ⟨?_, ?_, ?_, ?_, ?_⟩
  · exact_mod_cast hcols
  · exact_mod_cast hrows
  · have hcast : ((n_items.toNat : ℤ)) = n_items := by omega
    calc n_items = (n_items.toNat : ℤ) := hcast.symm
      _ ≤ ((gridCols n_items.toNat window_w window_h padding min_cell_size *
            gridRows n_items.toNat window_w window_h padding min_cell_size
            : ℕ) : ℤ) := by exact_mod_cast hcount
      _ = _ := by push_cast; ring
  · exact le_max_left 1 _
  · exact le_max_left 1 _

/-- Witness for C1 at `item_count = 5`, canvas `800 × 600`, padding 8,
min cell size 24. -/
theorem grid_layout_invariants_witness :
    (1 : ℤ) ≤ 5 ∧
    (1 ≤ (compute_grid_dimensions 5 800 600 8 24).cols ∧
     1 ≤ (compute_grid_dimensions 5 800 600 8 24).rows ∧
     (5 : ℤ) ≤ (compute_grid_dimensions 5 800 600 8 24).cols *
        (compute_grid_dimensions 5 800 600 8 24).rows ∧
     1 ≤ (compute_grid_dimensions 5 800 600 8 24).cell_w ∧
     1 ≤ (compute_grid_dimensions 5 800 600 8 24).cell_h) :=
  ⟨by norm_num, grid_layout_invariants 5 800 600 8 24 (by norm_num)⟩

/-- C8: for every `item_count ≥ 1` the column search terminates with a
value `cols` that starts at `ceil(sqrt(item_count))` and only ever
decreases (`cols ≤ ceil(sqrt n)` and `1 ≤ cols`); it stops either at the
first (largest) column count whose candidate cell sizes both meet
`min_cell_size`, or at `cols = 1` as a best-effort layout: every column
count strictly between the result and the initial value fails the
candidate test, and the result either passes the test or equals 1. -/
theorem column_search_behavior (n_items window_w window_h padding
    min_cell_size : ℤ) (h : 1 ≤ n_items) :
    (compute_grid_dimensions n_items window_w window_h padding
        min_cell_size).cols =
      (searchCols n_items.toNat window_w window_h padding min_cell_size
        (ceilSqrt n_items.toNat) : ℤ) ∧
    1 ≤ (compute_grid_dimensions n_items window_w window_h padding
        min_cell_size).cols ∧
    (compute_grid_dimensions n_items window_w window_h padding
        min_cell_size).cols ≤ (ceilSqrt n_items.toNat : ℤ) ∧
    (candGood n_items.toNat window_w window_h padding min_cell_size
        (compute_grid_dimensions n_items window_w window_h padding
          min_cell_size).cols.toNat ∨
      (compute_grid_dimensions n_items window_w window_h padding
        min_cell_size).cols = 1) ∧
    ∀ c : ℕ,
      (compute_grid_dimensions n_items window_w window_h padding
        min_cell_size).cols < (c : ℤ) →
      (c : ℤ) ≤ (ceilSqrt n_items.toNat : ℤ) →
      ¬ candGood n_items.toNat window_w window_h padding min_cell_size c := by
  have h0 : ¬ n_items ≤ 0 := by omega
  rw [compute_grid_dimensions, if_neg h0]
  dsimp only
  have hn1 : 1 ≤ n_items.toNat := by omega
  have hc0 : 1 ≤ ceilSqrt n_items.toNat := ceilSqrt_pos _ hn1
  refine ⟨rfl, ?_, ?_, ?_, ?_⟩
  · exact_mod_cast searchCols_pos _ _ _ _ _ _ hc0
  · exact_mod_cast searchCols_le n_items.toNat window_w window_h padding
      min_cell_size (ceilSqrt n_items.toNat)
  · rcases searchCols_good_or_one n_items.toNat window_w window_h padding
      min_cell_size (ceilSqrt n_items.toNat) hc0 with hg | h1
    · left
      simpa using hg
    · right
      exact_mod_cast h1
  · intro c hc1 hc2
    exact searchCols_first n_items.toNat window_w window_h padding
      min_cell_size (ceilSqrt n_items.toNat) c (by exact_mod_cast hc1)
      (by exact_mod_cast hc2)

/-- Witness for C8 at `item_count = 7`, canvas `100 × 100`, padding 8,
min cell size 60 (a case where the search walks all the way down to 1). -/
theorem column_search_behavior_witness :
    (1 : ℤ) ≤ 7 ∧
    ((compute_grid_dimensions 7 100 100 8 60).cols =
      (searchCols (7 : ℤ).toNat 100 100 8 60 (ceilSqrt (7 : ℤ).toNat) : ℤ) ∧
     1 ≤ (compute_grid_dimensions 7 100 100 8 60).cols ∧
     (compute_grid_dimensions 7 100 100 8 60).cols ≤
        (ceilSqrt (7 : ℤ).toNat : ℤ) ∧
     (candGood (7 : ℤ).toNat 100 100 8 60
        (compute_grid_dimensions 7 100 100 8 60).cols.toNat ∨
      (compute_grid_dimensions 7 100 100 8 60).cols = 1) ∧
     ∀ c : ℕ, (compute_grid_dimensions 7 100 100 8 60).cols < (c : ℤ) →
        (c : ℤ) ≤ (ceilSqrt (7 : ℤ).toNat : ℤ) →
        ¬ candGood (7 : ℤ).toNat 100 100 8 60 c) :=
  ⟨by norm_num, column_search_behavior 7 100 100 8 60 (by norm_num)⟩

/-- The loop returns its starting point when the candidate test passes
there (the `break` on line 99). -/
theorem searchCols_eq_of_good (n : ℕ) (W H p m : ℤ) (c : ℕ) (hc : 2 ≤ c)
    (hg : candGood n W H p m c) : searchCols n W H p m c = c := by
  obtain ⟨c', rfl⟩ : ∃ c', c = c' + 2 := ⟨c - 2, by omega⟩
  rw [searchCols, if_pos hg]

/-- C6: `compute_layout(5, 800, 600, 8, 24)` returns `columns = 3` and
`rows = 2`; the cell sizes are the floors of the candidate formulas
`(canvas − (columns+1)·padding)/columns` and
`(canvas − (rows+1)·padding)/rows` clamped to at least 1 (256 and 288
pixels), and the origin is the centering offset
`max(0, (canvas − grid_footprint)/2)` in each axis (0, 0: the grid
exactly fills the 800 × 600 canvas). -/
theorem concrete_scenario_five_items :
    compute_grid_dimensions 5 800 600 8 24 = ⟨3, 2, 256, 288, 0, 0⟩ ∧
    (256 : ℤ) = max 1 ⌊((800 : ℚ) - (3 + 1) * 8) / 3⌋ ∧
    (288 : ℤ) = max 1 ⌊((600 : ℚ) - (2 + 1) * 8) / 2⌋ ∧
    (0 : ℤ) = max 0 ⌊((800 : ℚ) - (3 * 256 + (3 + 1) * 8)) / 2⌋ ∧
    (0 : ℤ) = max 0 ⌊((600 : ℚ) - (2 * 288 + (2 + 1) * 8)) / 2⌋ := by
  have hsq : Nat.sqrt 5 = 2 := by norm_num
  have hcs : ceilSqrt 5 = 3 := by rw [ceilSqrt, hsq]; norm_num
  have hceil : ⌈(5 : ℚ) / (3 : ℚ)⌉ = 2 := by
    rw [Int.ceil_eq_iff]; norm_num
  have hrf : rowsFor 5 3 = 2 := by
    rw [rowsFor]
    have hq : ((5 : ℕ) : ℚ) / ((3 : ℕ) : ℚ) = (5 : ℚ) / (3 : ℚ) := by
      norm_num
    rw [hq, hceil]
    rfl
  have hcw : cellCand 800 3 8 = 256 := by
    rw [cellCand]; norm_num
  have hch : cellCand 600 2 8 = 288 := by
    rw [cellCand]; norm_num
  have hcand : candGood 5 800 600 8 24 3 := by
    refine ⟨?_, ?_⟩
    · rw [hcw]; norm_num
    · rw [hrf, hch]; norm_num
  have hsearch : searchCols 5 800 600 8 24 3 = 3 :=
    searchCols_eq_of_good 5 800 600 8 24 3 (by norm_num) hcand
  have hgc : gridCols 5 800 600 8 24 = 3 := by
    rw [gridCols, hcs, hsearch]
  have hgr : gridRows 5 800 600 8 24 = 2 := by
    rw [gridRows, hgc, hrf]
  have hpi256 : pyInt (256 : ℚ) = 256 := by
    rw [pyInt, if_pos (by norm_num)]; norm_num
  have hpi288 : pyInt (288 : ℚ) = 288 := by
    rw [pyInt, if_pos (by norm_num)]; norm_num
  have hcellw : gridCellW 5 800 600 8 24 = 256 := by
    rw [gridCellW, hgc, hcw, hpi256]; norm_num
  have hcellh : gridCellH 5 800 600 8 24 = 288 := by
    rw [gridCellH, hgr, hch, hpi288]; norm_num
  have hgw : gridW 5 800 600 8 24 = 800 := by
    rw [gridW, hgc, hcellw]; norm_num
  have hgh : gridH 5 800 600 8 24 = 600 := by
    rw [gridH, hgr, hcellh]; norm_num
  have hpi0 : pyInt (0 : ℚ) = 0 := by
    rw [pyInt, if_pos (by norm_num)]; norm_num
  have hleft : gridLeft 5 800 600 8 24 = 0 := by
    rw [gridLeft, hgw]
    norm_num [hpi0]
  have htop : gridTop 5 800 600 8 24 = 0 := by
    rw [gridTop, hgh]
    norm_num [hpi0]
  refine ⟨?_, by norm_num, by norm_num, by norm_num, by norm_num⟩
  rw [compute_grid_dimensions, if_neg (by norm_num : ¬ (5 : ℤ) ≤ 0)]
  have htn : (5 : ℤ).toNat = 5 := rfl
  rw [htn]
  simp only [GridLayout.mk.injEq]
  refine ⟨?_, ?_, hcellw, hcellh, hleft, htop⟩
  · exact_mod_cast hgc
  · exact_mod_cast hgr

/-! ## Claims about the active-note set -/

/-- C10: a `note_on` with positive velocity for a note that is not a key of
the loaded image map leaves the `active` dict completely unchanged — the
note is never inserted, no other entry is touched, and the handler returns
normally (no error). -/
theorem unmapped_note_on_ignored (images : List (ℕ × ℕ)) (active : ActiveMap)
    (note velocity now : ℕ) (hv : 0 < velocity)
    (hmiss : images.lookup note = none) :
    handleMsg images now active (.note_on note velocity) = active := by
  rw [handleMsg, if_pos hv, hmiss]

/-- Witness for C10: note 61 with velocity 100 while only note 60 has a
loaded image, against a nonempty active dict. -/
theorem unmapped_note_on_ignored_witness :
    0 < 100 ∧ List.lookup 61 [(60, 7)] = none ∧
    handleMsg [(60, 7)] 5 [(60, 7, 3)] (.note_on 61 100) = [(60, 7, 3)] :=
  ⟨by norm_num, by rfl,
    unmapped_note_on_ignored [(60, 7)] [(60, 7, 3)] 61 100 5 (by norm_num)
      (by rfl)⟩

/-- C7: from an empty active set, handling
`note_on 60 (v > 0)`, `note_on 64 (v > 0)`, `note_off 60` — with both
notes mapped to loaded images — leaves exactly note 64 active, and the
deterministic ascending render order for that set is `[64]`. -/
theorem note_event_scenario (images : List (ℕ × ℕ)) (s60 s64 v1 v2 t1 t2 t3 : ℕ)
    (h60 : images.lookup 60 = some s60) (h64 : images.lookup 64 = some s64)
    (hv1 : 0 < v1) (hv2 : 0 < v2) :
    handleMsgs images []
        [(.note_on 60 v1, t1), (.note_on 64 v2, t2), (.note_off 60, t3)] =
      [(64, s64, t2)] ∧
    sorted_notes (handleMsgs images []
        [(.note_on 60 v1, t1), (.note_on 64 v2, t2), (.note_off 60, t3)]) =
      [64] := by
  have key : handleMsgs images []
      [(.note_on 60 v1, t1), (.note_on 64 v2, t2), (.note_off 60, t3)] =
      [(64, s64, t2)] := by
    simp [handleMsgs, handleMsg, hv1, hv2, h60, h64, dictSet, dictDel,
      List.filter]
  refine ⟨key, ?_⟩
  rw [key]
  simp [sorted_notes, List.insertionSort]

/-- Witness for C7 with the image map `{60 ↦ 7, 64 ↦ 9}`, velocities 100
and 90, timestamps 1, 2, 3. -/
theorem note_event_scenario_witness :
    List.lookup 60 [(60, 7), (64, 9)] = some 7 ∧
    List.lookup 64 [(60, 7), (64, 9)] = some 9 ∧
    0 < 100 ∧ 0 < 90 ∧
    (handleMsgs [(60, 7), (64, 9)] []
        [(.note_on 60 100, 1), (.note_on 64 90, 2), (.note_off 60, 3)] =
      [(64, 9, 2)] ∧
    sorted_notes (handleMsgs [(60, 7), (64, 9)] []
        [(.note_on 60 100, 1), (.note_on 64 90, 2), (.note_off 60, 3)]) =
      [64]) :=
  ⟨by rfl, by rfl, by norm_num, by norm_num,
    note_event_scenario [(60, 7), (64, 9)] 7 9 100 90 1 2 3 (by rfl) (by rfl)
      (by norm_num) (by norm_num)⟩

/-! ### Helper lemmas for the signal pipeline -/

theorem foldl_min_le_init (xs : List ℚ) : ∀ a : ℚ, xs.foldl min a ≤ a := by
  induction xs with
  | nil => intro a; exact le_refl a
  | cons x xs ih =>
    intro a
    exact le_trans (ih (min a x)) (min_le_left a x)

theorem foldl_min_le_mem (xs : List ℚ) :
    ∀ a x : ℚ, x ∈ xs → xs.foldl min a ≤ x := by
  induction xs with
  | nil => intro a x hx; cases hx
  | cons y ys ih =>
    intro a x hx
    rcases List.mem_cons.mp hx with rfl | hx'
    · exact le_trans (foldl_min_le_init ys (min a x)) (min_le_right a x)
    · exact ih (min a y) x hx'

theorem init_le_foldl_max (xs : List ℚ) : ∀ a : ℚ, a ≤ xs.foldl max a := by
  induction xs with
  | nil => intro a; exact le_refl a
  | cons x xs ih =>
    intro a
    exact le_trans (le_max_left a x) (ih (max a x))

theorem mem_le_foldl_max (xs : List ℚ) :
    ∀ a x : ℚ, x ∈ xs → x ≤ xs.foldl max a := by
  induction xs with
  | nil => intro a x hx; cases hx
  | cons y ys ih =>
    intro a x hx
    rcases List.mem_cons.mp hx with rfl | hx'
    · exact le_trans (le_max_right a x) (init_le_foldl_max ys (max a x))
    · exact ih (max a y) x hx'

/-- `numpy.min` is a lower bound of the sequence. -/
theorem listMin_le (l : List ℚ) (m : ℚ) (h : listMin l = some m) :
    ∀ x ∈ l, m ≤ x := by
  match l, h with
  | x :: xs, h =>
    rw [listMin] at h
    injection h with h
    subst h
    intro y hy
    rcases List.mem_cons.mp hy with rfl | hy'
    · exact foldl_min_le_init xs y
    · exact foldl_min_le_mem xs x y hy'

/-- `numpy.max` is an upper bound of the sequence. -/
theorem le_listMax (l : List ℚ) (M : ℚ) (h : listMax l = some M) :
    ∀ x ∈ l, x ≤ M := by
  match l, h with
  | x :: xs, h =>
    rw [listMax] at h
    injection h with h
    subst h
    intro y hy
    rcases List.mem_cons.mp hy with rfl | hy'
    · exact init_le_foldl_max xs y
    · exact mem_le_foldl_max xs x y hy'

theorem listMin_le_listMax (l : List ℚ) (m M : ℚ) (hm : listMin l = some m)
    (hM : listMax l = some M) : m ≤ M := by
  match l, hm with
  | x :: xs, hm =>
    have h1 := listMin_le _ _ hm x (by simp)
    have h2 := le_listMax _ _ hM x (by simp)
    exact le_trans h1 h2

/-- Rebuilding one row from its flattened pixels. -/
theorem chunkRow_flatten {α : Type} : ∀ row : List (List α),
    (∀ px ∈ row, px.length = 3) →
    chunkRow row.length 3 row.flatten = row := by
  intro row
  induction row with
  | nil => intro _; rfl
  | cons px rest ih =>
    intro h
    have hpx : px.length = 3 := h px (List.mem_cons_self px rest)
    show chunkRow (rest.length + 1) 3 (px :: rest).flatten = px :: rest
    rw [List.flatten_cons, chunkRow]
    congr 1
    · exact List.take_left' hpx
    · rw [List.drop_left' hpx]
      exact ih (fun q hq => h q (List.mem_cons_of_mem _ hq))

/-- Rebuilding a whole well-formed frame from its flattened samples. -/
theorem reshape3_flatten3 {α : Type} : ∀ (f : Frame α) (W : ℕ),
    (∀ row ∈ f, row.length = W ∧ ∀ px ∈ row, px.length = 3) →
    reshape3 f.length W 3 (flatten3 f) = f := by
  intro f
  induction f with
  | nil => intro W _; rfl
  | cons row rest ih =>
    intro W h
    obtain ⟨hW, hpx⟩ := h row (List.mem_cons_self row rest)
    have hjoin : row.flatten.length = W * 3 := by
      rw [List.length_flatten]
      have hrep : row.map List.length = List.replicate W 3 := by
        refine List.eq_replicate_iff.mpr ⟨by simp [hW], ?_⟩
        intro b hb
        obtain ⟨px, hpxm, rfl⟩ := List.mem_map.mp hb
        exact hpx px hpxm
      rw [hrep, List.sum_replicate, smul_eq_mul]
    have hflat : flatten3 (row :: rest) = row.flatten ++ flatten3 rest := by
      simp [flatten3]
    show reshape3 (rest.length + 1) W 3 (flatten3 (row :: rest)) = row :: rest
    rw [reshape3, hflat]
    congr 1
    · rw [← hjoin, List.take_left, ← hW]
      exact chunkRow_flatten row hpx
    · rw [← hjoin, List.drop_left]
      exact ih W (fun r hr => h r (List.mem_cons_of_mem _ hr))

/-- A well-formed frame with `H * W = 0` flattens to the empty signal. -/
theorem flatten3_eq_nil_of_degenerate {α : Type} (H W : ℕ) (f : Frame α)
    (hf : wfFrame H W f) (h0 : H * W = 0) : flatten3 f = [] := by
  obtain ⟨hlen, hrows⟩ := hf
  rcases Nat.mul_eq_zero.mp h0 with hH | hW
  · have : f = [] := List.length_eq_zero.mp (hlen.trans hH)
    subst this
    rfl
  · clear hlen h0
    induction f with
    | nil => rfl
    | cons row rest ih =>
      obtain ⟨hr, _⟩ := hrows row (List.mem_cons_self row rest)
      have hrnil : row = [] := List.length_eq_zero.mp (hr.trans hW)
      have htail := ih (fun r hr => hrows r (List.mem_cons_of_mem _ hr))
      subst hrnil
      simpa [flatten3] using htail

/-- Clip-then-truncate equals floor-then-clamp: the byte actually produced
by `denormByte` is the floor of the scaled sample clamped into `0..255`. -/
theorem denormByte_eq (s : ℚ) :
    denormByte s = min 255 (max 0 ⌊(s + 1) * (1 / 2) * 255⌋) := by
  rw [denormByte, clipQ, pyInt]
  set x := (s + 1) * (1 / 2) * 255 with hx
  rcases le_or_lt x 0 with hx0 | hx0
  · have h1 : ⌊x⌋ ≤ 0 := Int.floor_nonpos hx0
    rw [max_eq_right hx0, min_eq_left (by norm_num : (0 : ℚ) ≤ 255),
      if_pos (le_refl (0 : ℚ)), Int.floor_zero, max_eq_left h1,
      min_eq_right (by norm_num : (0 : ℤ) ≤ 255)]
  · rcases le_or_lt 255 x with hx255 | hx255
    · have h2 : (255 : ℤ) ≤ ⌊x⌋ := Int.le_floor.mpr (by exact_mod_cast hx255)
      have h3 : (0 : ℤ) ≤ ⌊x⌋ := le_trans (by norm_num) h2
      rw [max_eq_left (le_of_lt hx0), min_eq_right hx255,
        if_pos (by norm_num : (0 : ℚ) ≤ 255), max_eq_right h3,
        min_eq_left h2]
      norm_num
    · have h4 : (0 : ℤ) ≤ ⌊x⌋ := Int.le_floor.mpr (by exact_mod_cast hx0.le)
      have h5 : ⌊x⌋ ≤ 255 := by
        have h6 : ⌊x⌋ ≤ ⌊(255 : ℚ)⌋ := Int.floor_le_floor hx255.le
        simpa using h6
      rw [max_eq_left hx0.le, min_eq_left hx255.le, if_pos hx0.le,
        max_eq_right h4, min_eq_right h5]

/-! ## Claims about the signal pipeline -/

/-- C4: flattening a frame buffer in the fixed row-major (height, width,
channel) traversal order and reshaping the flat sequence with the same
`H × W × 3` geometry reproduces the original buffer exactly (the effect
stage plays no role: this is the round-trip identity of `flatten3` and
`reshape3` as used by `process_image_array`). -/
theorem flatten_reshape_identity (H W : ℕ) (f : Frame ℕ)
    (hf : wfFrame H W f) : reshape3 H W 3 (flatten3 f) = f := by
  obtain ⟨hlen, hrows⟩ := hf
  subst hlen
  exact reshape3_flatten3 f W hrows

/-- Witness for C4 on a concrete `1 × 2 × 3` frame. -/
theorem flatten_reshape_identity_witness :
    wfFrame 1 2 [[[10, 20, 30], [40, 50, 60]]] ∧
    reshape3 1 2 3 (flatten3 [[[10, 20, 30], [40, 50, 60]]]) =
      [[[10, 20, 30], [40, 50, 60]]] :=
  ⟨by constructor <;> simp [wfFrame],
    flatten_reshape_identity 1 2 [[[10, 20, 30], [40, 50, 60]]]
      (by constructor <;> simp [wfFrame])⟩

/-- C5: in the normalization step, if the maximum sample equals the
minimum (a flat-colour frame) the whole normalized signal is `0.0`;
otherwise every sample `x` maps to `2 * (x − min) / (max − min) − 1` and
the normalized signal lies in `[-1, 1]`. -/
theorem normalization_cases (l : List ℚ) (m M : ℚ)
    (hm : listMin l = some m) (hM : listMax l = some M) :
    (M = m → normalizeSignal l = some (l.map fun _ => 0)) ∧
    (M ≠ m →
      normalizeSignal l = some (l.map fun x => 2 * ((x - m) / (M - m)) - 1) ∧
      ∀ y ∈ l.map (fun x => 2 * ((x - m) / (M - m)) - 1),
        -1 ≤ y ∧ y ≤ 1) := by
  constructor
  · intro hEq
    unfold normalizeSignal
    rw [hm, hM]
    dsimp only
    rw [if_pos hEq]
  · intro hNe
    refine ⟨?_, ?_⟩
    · unfold normalizeSignal
      rw [hm, hM]
      dsimp only
      rw [if_neg hNe]
    · intro y hy
      obtain ⟨x, hx, rfl⟩ := List.mem_map.mp hy
      have h1 : m ≤ x := listMin_le l m hm x hx
      have h2 : x ≤ M := le_listMax l M hM x hx
      have hmM : m < M :=
        lt_of_le_of_ne (listMin_le_listMax l m M hm hM) (fun h => hNe h.symm)
      have hpos : (0 : ℚ) < M - m := by linarith
      constructor
      · have hd : 0 ≤ (x - m) / (M - m) :=
          div_nonneg (by linarith) hpos.le
        linarith
      · have hd : (x - m) / (M - m) ≤ 1 :=
          (div_le_one hpos).mpr (by linarith)
        linarith

/-- Witness for C5 on the signal `[0, 1, 2]` (min 0, max 2). -/
theorem normalization_cases_witness :
    listMin [0, 1, 2] = some 0 ∧ listMax [0, 1, 2] = some 2 ∧
    (((2 : ℚ) = 0 →
      normalizeSignal [0, 1, 2] = some (([0, 1, 2] : List ℚ).map fun _ => 0)) ∧
     ((2 : ℚ) ≠ 0 →
      normalizeSignal [0, 1, 2] =
        some (([0, 1, 2] : List ℚ).map fun x => 2 * ((x - 0) / (2 - 0)) - 1) ∧
      ∀ y ∈ ([0, 1, 2] : List ℚ).map (fun x => 2 * ((x - 0) / (2 - 0)) - 1),
        -1 ≤ y ∧ y ≤ 1)) :=
  ⟨by norm_num [listMin, List.foldl, min_def],
   by norm_num [listMax, List.foldl, max_def],
   normalization_cases [0, 1, 2] 0 2
     (by norm_num [listMin, List.foldl, min_def])
     (by norm_num [listMax, List.foldl, max_def])⟩

/-- C2 (amended): for a frame with `H * W = 0` the flattened signal is
empty, so `process_image_array` fails — `numpy.min` of an empty array
raises `ValueError` (`none` here); there is no empty-frame guard before
the normalization step, contrary to the claim. -/
theorem empty_frame_is_error (effect : List ℚ → List ℚ) (H W : ℕ)
    (f : Frame ℕ) (hf : wfFrame H W f) (h0 : H * W = 0) :
    process_image_array effect H W f = none := by
  have hnil : flatten3 f = [] := flatten3_eq_nil_of_degenerate H W f hf h0
  rw [process_image_array, hnil]
  rfl

/-- Witness for the amended C2: an empty frame with `H = 0`, `W = 5`. -/
theorem empty_frame_is_error_witness :
    wfFrame 0 5 ([] : Frame ℕ) ∧ 0 * 5 = 0 ∧
    process_image_array (fun s => s) 0 5 ([] : Frame ℕ) = none :=
  ⟨⟨rfl, by simp⟩, rfl,
    empty_frame_is_error (fun s => s) 0 5 [] ⟨rfl, by simp⟩ rfl⟩

/-- Counterexample to C2 as stated: on the empty frame the pipeline does
not return an empty buffer — the normalization step is reached and its
`min` reduction fails, so the call is an error (`none`), not
`some []`. -/
theorem empty_frame_error_cex :
    process_image_array (fun s => s) 0 0 ([] : Frame ℕ) = none ∧
    process_image_array (fun s => s) 0 0 ([] : Frame ℕ) ≠
      some ([] : Frame ℤ) := by
  constructor
  · rfl
  · intro h
    rw [(rfl : process_image_array (fun s => s) 0 0 ([] : Frame ℕ) = none)]
      at h
    exact Option.noConfusion h

/-- C3 (amended): the denormalization step produces
`byte = clip((s + 1) * 0.5 * 255, 0, 255)` truncated toward zero — i.e.
the floor of the clipped scale, `min 255 (max 0 ⌊(s+1)·½·255⌋)` — not the
nearest-integer rounding the original claim states. -/
theorem denormalization_floor_clip (effect : List ℚ → List ℚ) (H W : ℕ)
    (f : Frame ℕ) (audio : List ℚ)
    (h : normalizeSignal ((flatten3 f).map (fun b : ℕ => (b : ℚ))) = some audio) :
    process_image_array effect H W f =
      some (reshape3 H W 3 ((effect audio).map
        (fun s => min 255 (max 0 ⌊(s + 1) * (1 / 2) * 255⌋)))) := by
  have hfun : denormByte = fun s => min 255 (max 0 ⌊(s + 1) * (1 / 2) * 255⌋) :=
    funext denormByte_eq
  rw [process_image_array, h, hfun]

/-- Helper evaluation: the normalized signal of the `1 × 1 × 3` frame
`[[[0, 1, 2]]]` is `[-1, 0, 1]`. -/
theorem normalizeSignal_example :
    normalizeSignal ((flatten3 [[[0, 1, 2]]]).map (fun b : ℕ => (b : ℚ))) =
      some [-1, 0, 1] := by
  norm_num [flatten3, normalizeSignal, listMin, listMax, List.foldl,
    min_def, max_def]

/-- Witness for the amended C3 on the frame `[[[0, 1, 2]]]` with the
identity effect chain. -/
theorem denormalization_floor_clip_witness :
    normalizeSignal ((flatten3 [[[0, 1, 2]]]).map (fun b : ℕ => (b : ℚ))) =
      some [-1, 0, 1] ∧
    process_image_array (fun s => s) 1 1 [[[0, 1, 2]]] =
      some (reshape3 1 1 3 (((fun s => s) ([-1, 0, 1] : List ℚ)).map
        (fun s => min 255 (max 0 ⌊(s + 1) * (1 / 2) * 255⌋)))) :=
  ⟨normalizeSignal_example,
    denormalization_floor_clip (fun s => s) 1 1 [[[0, 1, 2]]] [-1, 0, 1]
      normalizeSignal_example⟩

/-- Counterexample to C3 as stated: on the frame `[[[0, 1, 2]]]` the
middle sample normalizes to `0`, whose scaled value is `127.5`; the code
truncates it to byte `127`, while the claimed round-then-clip formula
gives `128`. -/
theorem denormalization_not_round :
    process_image_array (fun s => s) 1 1 [[[0, 1, 2]]] =
      some [[[(0 : ℤ), 127, 255]]] ∧
    denormByte 0 = 127 ∧
    specDenormByte 0 = 128 := by
  have hmap : ([-1, 0, 1] : List ℚ).map denormByte = [(0 : ℤ), 127, 255] := by
    norm_num [denormByte, clipQ, pyInt, min_def, max_def]
  refine ⟨?_, ?_, ?_⟩
  · rw [process_image_array, normalizeSignal_example]
    dsimp only
    rw [hmap]
    rfl
  · norm_num [denormByte, clipQ, pyInt, min_def, max_def]
  · norm_num [specDenormByte, round_eq, min_def, max_def]
